import Mathlib

/-!
# Verification of the moy-sklad rate-limited batch-fetching request core

Shallow embedding, in Lean 4, of the request core of the `brand-map/moy-sklad`
TypeScript client: the quota model (`getRequestWeight`, `getRateLimitThreshold`),
the rate limiter (`updateRateLimitInfo`, `calculateBackoffDelay`), the
concurrency gate (`waitForParallelSlot` / `concurrent` counter protocol), the
request executor (`request` with its 429 retry branch), and the batch paginator
(`batchGet`, `getChunks`).

Pure functions of the source are translated to Lean functions; the page
fetcher of the paginator is modelled as a pure function `limit → offset → ListResponse`
(the "unchanged backing collection" assumption) or, for error-propagation
claims, as `limit → offset → Except ε ListResponse`.  JavaScript numbers in the
rate-limit accounting are modelled as `Int` (they are produced by `parseInt`
and by subtraction, which can go negative); sizes, limits and offsets are `Nat`.
The cooperative event-loop scheduling of concurrent `request` calls is modelled
as an explicit interleaving of atomic synchronous segments, with one transition
per `await` boundary of the source.
-/

namespace MoySklad

/-! ## Data model: list responses, batch results, batch options

From `src/types` / the `ApiClient` surface: a collection page is
`{ rows, meta: { size }, context }`; a batch result is `{ rows, context }`.
`T` is the row type, `C` the (opaque) context type. -/

/-- One page of a collection endpoint: `{ rows: T[], meta: { size }, context }`. -/
structure ListResponse (T C : Type) where
  rows : List T
  size : Nat
  context : C
  deriving Repr, DecidableEq

/-- Result of `batchGet` (and the shape of each chunk of `getChunks`):
`{ rows: T[], context }`. -/
structure BatchGetResult (T C : Type) where
  rows : List T
  context : C
  deriving Repr, DecidableEq

/-- Resolved `BatchGetOptions` with all fields required, as stored on the
client after the constructor merges defaults. -/
structure BatchGetOptions where
  limit : Nat
  expandLimit : Nat
  concurrencyLimit : Nat
  deriving Repr, DecidableEq

/-- The constructor defaults: `{ limit: 1000, expandLimit: 100, concurrencyLimit: 3 }`. -/
def defaultBatchGetOptions : BatchGetOptions :=
  { limit := 1000, expandLimit := 100, concurrencyLimit := 3 }

/-- A page fetcher over an unchanged backing collection:
`fetcher(limit, offset)` as a pure function. -/
abbrev Fetcher (T C : Type) := Nat → Nat → ListResponse T C

/-- Effective page limit: `hasExpand ? batchGetOptions.expandLimit : batchGetOptions.limit`. -/
def effectiveLimit (opts : BatchGetOptions) (hasExpand : Bool) : Nat :=
  if hasExpand then opts.expandLimit else opts.limit

/-- Ceiling division, `Math.ceil(a / b)` on non-negative integers (used as
`Math.ceil((size - limit) / limit)` with `size > limit`). -/
def ceilDiv (a b : Nat) : Nat := (a + b - 1) / b

/-! ## The group loop of `batchGet` / `getChunks`

Source loop (identical in both):
```
for (let i = 0; i < remainingBatches; i += concurrencyLimit) {
  const batchEnd = Math.min(i + concurrencyLimit, remainingBatches)
  for (let j = i; j < batchEnd; j++) { ... offset = limit + j * limit ... }
  await Promise.all(...)
}
```
`groupLoop` computes the successive groups of loop indices `j`; the `fuel`
argument bounds the number of iterations (with `concurrencyLimit ≥ 1`, a fuel
of `remainingBatches` always suffices, since `i` grows by at least 1 per
iteration). -/

def groupLoop (c : Nat) : Nat → Nat → Nat → List (List Nat)
  | 0, _, _ => []
  | fuel + 1, i, rb =>
    if i < rb then
      List.range' i (min (i + c) rb - i) :: groupLoop c fuel (i + c) rb
    else []

/-- The groups of batch indices `j ∈ [0, remainingBatches)` processed per outer
iteration, each of size at most `concurrencyLimit`. -/
def batchGroups (rb c : Nat) : List (List Nat) := groupLoop c rb 0 rb

/-! ## `batchGet` — the materializing paginator (`ApiClient.batchGet`)

```
const limit = hasExpand ? expandLimit : limit
const data = await fetcher(limit, 0)
const { size } = data.meta
if (size <= limit) return { context, rows: data.rows }
const allRows = [...data.rows]
const remainingBatches = Math.ceil((size - limit) / limit)
for each group: batchResults = await Promise.all(rows of the pages in the group)
               for (const rows of batchResults) allRows.push(...rows)
return { context, rows: allRows }
```
`Promise.all` gathers results by index (not completion order), which on a pure
fetcher is the list `map`. -/

def batchGet {T C : Type} (opts : BatchGetOptions) (f : Fetcher T C)
    (hasExpand : Bool) : BatchGetResult T C :=
  let limit := effectiveLimit opts hasExpand
  let data := f limit 0
  if data.size ≤ limit then
    { context := data.context, rows := data.rows }
  else
    let remainingBatches := ceilDiv (data.size - limit) limit
    let groups := batchGroups remainingBatches opts.concurrencyLimit
    let extra :=
      groups.flatMap fun g =>
        ((g.map fun j => (f limit (limit + j * limit)).rows).flatten)
    { context := data.context, rows := data.rows ++ extra }

/-- The `(limit, offset)` arguments of the `fetcher` calls issued by
`batchGet`, grouped exactly as the source awaits them: the offset-0 call is
awaited alone, then each inner group is issued together via `Promise.all` and
awaited before the next group starts. -/
def batchGetCallGroups {T C : Type} (opts : BatchGetOptions) (f : Fetcher T C)
    (hasExpand : Bool) : List (List (Nat × Nat)) :=
  let limit := effectiveLimit opts hasExpand
  let data := f limit 0
  if data.size ≤ limit then
    [[(limit, 0)]]
  else
    let remainingBatches := ceilDiv (data.size - limit) limit
    let groups := batchGroups remainingBatches opts.concurrencyLimit
    [(limit, 0)] :: groups.map fun g => g.map fun j => (limit, limit + j * limit)

/-! ## `getChunks` — the streaming paginator (async generator)

```
const data = await fetcher(limit, 0)
yield { context, rows: data.rows }
if (size <= limit) return
const remainingBatches = Math.ceil((size - limit) / limit)
for each group: results = await Promise.all(rows of the pages in the group)
               yield { context, rows: results.flat() }
```
Run to completion, the generator produces this list of chunks. -/

def getChunks {T C : Type} (opts : BatchGetOptions) (f : Fetcher T C)
    (hasExpand : Bool) : List (BatchGetResult T C) :=
  let limit := effectiveLimit opts hasExpand
  let data := f limit 0
  { context := data.context, rows := data.rows } ::
    (if data.size ≤ limit then []
     else
       let remainingBatches := ceilDiv (data.size - limit) limit
       let groups := batchGroups remainingBatches opts.concurrencyLimit
       groups.map fun g =>
         { context := data.context
           rows := ((g.map fun j => (f limit (limit + j * limit)).rows).flatten) })

/-! ## `batchGet` via `getChunks` (the implementation in the draft client)

```
let context; const allRows = []
for await (const chunk of this.getChunks(fetcher, hasExpand)) {
  context = chunk.context; allRows.push(...chunk.rows)
}
if (context == null) throw new Error("getChunks returned no chunks")
return { context, rows: allRows }
```
-/

def batchGetViaChunks {T C : Type} (opts : BatchGetOptions) (f : Fetcher T C)
    (hasExpand : Bool) : Except String (BatchGetResult T C) :=
  let chunks := getChunks opts f hasExpand
  let ctx := chunks.foldl (fun _ ch => some ch.context) none
  let allRows := chunks.foldl (fun acc ch => acc ++ ch.rows) []
  match ctx with
  | none => .error "getChunks returned no chunks"
  | some c => .ok { context := c, rows := allRows }

/-! ## Rate limiter state and header synchronisation

From the active client (`ApiClient` in `src/api-client`):
```
interface RateLimitState { lastReset: number; requestsUsed: number; concurrent: number }
```
The numbers come from `parseInt` and integer subtraction; we model them as `Int`. -/

/-- Shared mutable rate-limit accounting of one client instance. -/
structure RateLimitState where
  lastReset : Int
  requestsUsed : Int
  concurrent : Int
  deriving Repr, DecidableEq

/-- Initial state set at construction: `{ lastReset: 0, requestsUsed: 0, concurrent: 0 }`. -/
def initialRateLimitState : RateLimitState :=
  { lastReset := 0, requestsUsed := 0, concurrent := 0 }

/-- Parsed rate-limit response headers (`X-RateLimit-Limit`, `X-RateLimit-Remaining`,
`X-RateLimit-Reset`), present. -/
structure RateLimitInfo where
  remaining : Int
  limit : Int
  reset : Int
  deriving Repr, DecidableEq

/-- State update performed by `updateRateLimitInfo` when all three rate-limit
headers are present (`parseRateLimitHeaders` returned non-null):
```
const now = Math.floor(Date.now() / 1000)
if (now >= rateLimitInfo.reset) {
  this.rateLimitState.lastReset = rateLimitInfo.reset
  this.rateLimitState.requestsUsed = 0
}
this.rateLimitState.requestsUsed = rateLimitInfo.limit - rateLimitInfo.remaining
```
Note that the final assignment is unconditional in the source. -/
def updateRateLimitInfo (st : RateLimitState) (now : Int) (info : RateLimitInfo) :
    RateLimitState :=
  let st1 :=
    if info.reset ≤ now then
      { st with lastReset := info.reset, requestsUsed := 0 }
    else st
  { st1 with requestsUsed := info.limit - info.remaining }

/-- Milliseconds to wait before the next request, `calculateBackoffDelay`:
```
const now = Math.floor(Date.now() / 1000)
if (now >= this.rateLimitState.lastReset) return 0
const windowRemaining = this.rateLimitState.lastReset - now
const requestsRemaining = this.rateLimitThreshold - this.rateLimitState.requestsUsed
if (requestsRemaining > 1) return 0
return windowRemaining * 1000 + 100
```
-/
def calculateBackoffDelay (rateLimitThreshold : Int) (st : RateLimitState)
    (now : Int) : Int :=
  if st.lastReset ≤ now then 0
  else
    let windowRemaining := st.lastReset - now
    let requestsRemaining := rateLimitThreshold - st.requestsUsed
    if 1 < requestsRemaining then 0
    else windowRemaining * 1000 + 100

/-- A run of back-to-back admissions inside one window: each admitted request
observes a zero backoff delay at the shared state and then accounts its weight
`w ≥ 1` into `requestsUsed` (the `this.rateLimitState.requestsUsed += this.requestWeight`
step of `request`). -/
def admittedRun (threshold now : Int) : RateLimitState → List Int → Prop
  | _, [] => True
  | st, w :: ws =>
    calculateBackoffDelay threshold st now = 0 ∧ 1 ≤ w ∧
      admittedRun threshold now { st with requestsUsed := st.requestsUsed + w } ws

/-! ## TokenBucket (`src/api-client/token-bucket.ts`) -/

/-- State of the `TokenBucket` class. -/
structure TokenBucket where
  capacity : Int
  tokens : Int
  windowDuration : Int
  lastRefill : Int
  nextReset : Int
  deriving Repr, DecidableEq

/-- Header synchronisation `TokenBucket.sync(serverRemaining, serverReset)`:
```
const now = Math.floor(Date.now() / 1000)
this.nextReset = serverReset
if (now >= serverReset) { this.tokens = this.capacity; this.lastRefill = serverReset }
else { this.tokens = serverRemaining; this.lastRefill = serverReset - this.windowDuration }
```
-/
def TokenBucket.sync (b : TokenBucket) (serverRemaining serverReset now : Int) :
    TokenBucket :=
  if serverReset ≤ now then
    { b with nextReset := serverReset, tokens := b.capacity, lastRefill := serverReset }
  else
    { b with nextReset := serverReset, tokens := serverRemaining,
             lastRefill := serverReset - b.windowDuration }

/-! ## Quota model: request weight and threshold

`getRequestWeight` compares `new Date()` against fixed calendar thresholds
(`new Date(2026, 11, 1)` is 2026-12-01, months being 0-based in JavaScript;
`new Date(2026, 8, 1)` is 2026-09-01; `new Date(2026, 4, 12)` is 2026-05-12).
Chronological order of dates, at day granularity, is lexicographic order on
(year, month, day), which `CalDate.le` spells out. -/

/-- A calendar date (1-based month). -/
structure CalDate where
  year : Nat
  month : Nat
  day : Nat
  deriving Repr, DecidableEq

/-- Chronological (lexicographic) order on calendar dates. -/
def CalDate.le (a b : CalDate) : Prop :=
  a.year < b.year ∨
    (a.year = b.year ∧
      (a.month < b.month ∨ (a.month = b.month ∧ a.day ≤ b.day)))

instance (a b : CalDate) : Decidable (CalDate.le a b) := by
  unfold CalDate.le
  infer_instance

/-- Threshold date 2026-05-12 (`new Date(2026, 4, 12)`). -/
def date_may12_2026 : CalDate := { year := 2026, month := 5, day := 12 }

/-- Threshold date 2026-09-01 (`new Date(2026, 8, 1)`). -/
def date_sep1_2026 : CalDate := { year := 2026, month := 9, day := 1 }

/-- Threshold date 2026-12-01 (`new Date(2026, 11, 1)`). -/
def date_dec1_2026 : CalDate := { year := 2026, month := 12, day := 1 }

/-- Authentication options: token auth or basic (login/password) auth.
`"login" in auth` distinguishes the two in the source. -/
inductive Auth
  | token (token : String)
  | basic (login password : String)
  deriving Repr, DecidableEq

/-- Request weight from auth type and current date, `getRequestWeight`:
token auth always weighs 1; user-credential auth weighs 4 from 2026-12-01,
3 from 2026-09-01, 2 from 2026-05-12, and 1 before. -/
def getRequestWeight (auth : Auth) (now : CalDate) : Nat :=
  match auth with
  | .token _ => 1
  | .basic _ _ =>
    if date_dec1_2026.le now then 4
    else if date_sep1_2026.le now then 3
    else if date_may12_2026.le now then 2
    else 1

/-- Rate limit threshold, `getRateLimitThreshold`:
`Math.floor(RATE_LIMIT_UNITS / weight)` with `RATE_LIMIT_UNITS = 45`. -/
def getRateLimitThreshold (weight : Nat) : Nat := 45 / weight

/-! ## Constructor option resolution and the concurrency clamp

```
this.batchGetOptions = { limit: 1000, expandLimit: 100, concurrencyLimit: 3,
                         ...options.batchGetOptions }
if (this.batchGetOptions.concurrencyLimit > this.parallelRequestLimit) {
  this.batchGetOptions.concurrencyLimit = this.parallelRequestLimit
}
```
with `private parallelRequestLimit = 5` on the active client. -/

/-- The `batchGetOptions` constructor argument, all fields optional
(absent fields fall back to the defaults via object spread). -/
structure BatchGetOptionsInput where
  limit : Option Nat := none
  expandLimit : Option Nat := none
  concurrencyLimit : Option Nat := none
  deriving Repr, DecidableEq

/-- The fixed parallel-request ceiling of the active client. -/
def parallelRequestLimit : Nat := 5

/-- Options as resolved by the `ApiClient` constructor: defaults overridden by
the configured values, then `concurrencyLimit` clamped to `parallelRequestLimit`. -/
def resolveBatchGetOptions (o : BatchGetOptionsInput) : BatchGetOptions :=
  let merged : BatchGetOptions :=
    { limit := o.limit.getD 1000
      expandLimit := o.expandLimit.getD 100
      concurrencyLimit := o.concurrencyLimit.getD 3 }
  if parallelRequestLimit < merged.concurrencyLimit then
    { merged with concurrencyLimit := parallelRequestLimit }
  else merged

/-! ## Request executor: response classification and the 429 retry

`request` performs the HTTP call and then:
```
if (!response.ok) {
  if (response.status === 429) {
    const retryAfter = response.headers.get("Retry-After")
    const delay = retryAfter ? parseInt(retryAfter, 10) * 1000 : 3100
    await new Promise((resolve) => setTimeout(resolve, delay))
    return this.request(endpoint, { searchParameters, body, ...options })
  }
  await handleError(response)
}
return response
```
We model one logical `request` over the list of responses its successive
attempts would receive, recording the sleep delays it performs. -/

/-- The response data `request` inspects: HTTP status, the `Retry-After`
header (seconds) when present, and the API error payload of the body. -/
structure HttpResponse where
  status : Nat
  retryAfter : Option Nat
  errorCode : Option Nat
  errorInfo : Option String
  deriving Repr, DecidableEq

/-- WHATWG `Response.ok`: status in the inclusive range 200-299. -/
def responseOk (status : Nat) : Bool := 200 ≤ status && status < 300

/-- Structured API error (`MoyskladApiError` in `src/errors.ts`): message,
the response (here: its HTTP status), and the optional API error code and info. -/
structure MoyskladApiError where
  message : String
  responseStatus : Nat
  code : Option Nat
  info : Option String
  deriving Repr, DecidableEq

/-- Modelled from the spec: `handleError` (defined in a utils module that is
not present under `src/`; only its import sites are) translates the HTTP
status and response payload of a non-2xx response into a typed, structured
error - a `MoyskladApiError` carrying the HTTP status and the API-provided
error code and message - and throws it. -/
def handleError (r : HttpResponse) : MoyskladApiError :=
  { message := "Moysklad API error"
    responseStatus := r.status
    code := r.errorCode
    info := r.errorInfo }

/-- Sleep delay of the 429 branch: `retryAfter ? parseInt(retryAfter, 10) * 1000 : 3100`. -/
def retryDelay429 (r : HttpResponse) : Nat :=
  match r.retryAfter with
  | some s => s * 1000
  | none => 3100

/-- Final outcome of one logical `request`. -/
inductive RequestOutcome
  | success (response : HttpResponse)
  | failure (error : MoyskladApiError)
  | exhausted
  deriving Repr, DecidableEq

/-- One logical `request(endpoint, options)` run against the list of responses
its successive attempts receive: a 429 response is slept on
(`retryDelay429`) and retried recursively with the same endpoint and options;
any other non-ok response raises `handleError`; an ok response is returned.
Returns the list of retry sleep delays performed and the outcome
(`exhausted` when the scripted attempts run out while still retrying). -/
def requestAttempts {Opt : Type} (endpoint : String) (options : Opt) :
    List HttpResponse → List Nat × RequestOutcome
  | [] => ([], .exhausted)
  | r :: rest =>
    if responseOk r.status then ([], .success r)
    else if r.status = 429 then
      let next := requestAttempts endpoint options rest
      (retryDelay429 r :: next.1, next.2)
    else ([], .failure (handleError r))

/-! ## Fallible fetchers: error propagation through the paginator

A fetcher whose page fetches can reject. `mapExceptList` models `Promise.all`
over the (deterministic) page promises of one group: it rejects iff some page
rejects, and gathers results by index otherwise. -/

/-- A page fetcher whose calls can reject with an error of type `ε`. -/
abbrev FetcherE (ε T C : Type) := Nat → Nat → Except ε (ListResponse T C)

/-- Sequence a list of fallible computations, first error wins (the model of
`Promise.all` over a scripted list of page fetches). -/
def mapExceptList {ε α β : Type} (h : α → Except ε β) : List α → Except ε (List β)
  | [] => .ok []
  | a :: as => do
    let b ← h a
    let bs ← mapExceptList h as
    .ok (b :: bs)

/-- Variant of `batchGet` over a fallible fetcher: identical page/offset math, with every
page fetch able to reject; a rejected page rejects the whole batch. -/
def batchGetE {ε T C : Type} (opts : BatchGetOptions) (f : FetcherE ε T C)
    (hasExpand : Bool) : Except ε (BatchGetResult T C) := do
  let limit := effectiveLimit opts hasExpand
  let data ← f limit 0
  if data.size ≤ limit then
    .ok { context := data.context, rows := data.rows }
  else
    let remainingBatches := ceilDiv (data.size - limit) limit
    let groups := batchGroups remainingBatches opts.concurrencyLimit
    let results ←
      mapExceptList
        (fun g =>
          mapExceptList (fun j => (f limit (limit + j * limit)).map ListResponse.rows) g)
        groups
    .ok { context := data.context, rows := data.rows ++ (results.map List.flatten).flatten }

/-- Group loop of `getChunks` over a fallible fetcher: chunks yielded so far,
and the rejection that terminated the generator, if any (fetching stops at the
first rejecting group). -/
def chunkGroupLoop {ε T C : Type} (f : FetcherE ε T C) (limit : Nat) (ctx : C) :
    List (List Nat) → List (BatchGetResult T C) × Option ε
  | [] => ([], none)
  | g :: gs =>
    match mapExceptList (fun j => (f limit (limit + j * limit)).map ListResponse.rows) g with
    | .error e => ([], some e)
    | .ok rss =>
      let rest := chunkGroupLoop f limit ctx gs
      ({ context := ctx, rows := rss.flatten } :: rest.1, rest.2)

/-- Variant of `getChunks` over a fallible fetcher: the chunks yielded before any
rejection, and the rejection if one occurred. -/
def getChunksE {ε T C : Type} (opts : BatchGetOptions) (f : FetcherE ε T C)
    (hasExpand : Bool) : List (BatchGetResult T C) × Option ε :=
  let limit := effectiveLimit opts hasExpand
  match f limit 0 with
  | .error e => ([], some e)
  | .ok data =>
    let first : BatchGetResult T C := { context := data.context, rows := data.rows }
    if data.size ≤ limit then ([first], none)
    else
      let remainingBatches := ceilDiv (data.size - limit) limit
      let groups := batchGroups remainingBatches opts.concurrencyLimit
      let rest := chunkGroupLoop f limit data.context groups
      (first :: rest.1, rest.2)

/-! ## The concurrency gate under cooperative scheduling

The slot protocol of `request`:
```
await this.waitForParallelSlot()        // while (concurrent >= cap) await sleep(50)
this.rateLimitState.concurrent++
try { ... HTTP call ... } finally { this.rateLimitState.concurrent-- }
```
Each task (one `request` call) is a sequence of atomic synchronous segments
separated by `await` suspension points.  Crucially, when the gate check
succeeds, `waitForParallelSlot` returns and the `await` suspends the caller:
the increment runs in a later microtask, so other tasks can run between the
check and the increment.  One transition of the system below is one atomic
segment of one task, chosen by the scheduler. -/

/-- Phase of one `request` task with respect to the concurrency gate. -/
inductive GatePhase
  /-- About to evaluate `concurrent >= parallelRequestLimit` at the top of the
  polling loop in `waitForParallelSlot`. -/
  | checking
  /-- Inside `await setTimeout(50)` of the polling loop. -/
  | sleeping
  /-- The polling loop exited (the check saw `concurrent < cap`) and
  `waitForParallelSlot` resolved, but the continuation holding
  `this.rateLimitState.concurrent++` has not run yet. -/
  | gateResolved
  /-- Slot acquired (counter incremented); the HTTP call is in flight. -/
  | running
  /-- The `finally` block ran: slot released (counter decremented). -/
  | finished
  deriving Repr, DecidableEq

/-- Global state: the shared `concurrent` counter and the phase of each task. -/
structure GateSystem where
  concurrent : Int
  tasks : List GatePhase
  deriving Repr, DecidableEq

/-- One atomic segment of a single task at the given counter value. -/
def gateStepPhase (cap concurrent : Int) : GatePhase → GatePhase × Int
  | .checking =>
    if cap ≤ concurrent then (.sleeping, concurrent) else (.gateResolved, concurrent)
  | .sleeping => (.checking, concurrent)
  | .gateResolved => (.running, concurrent + 1)
  | .running => (.finished, concurrent - 1)
  | .finished => (.finished, concurrent)

/-- Scheduler step: run the next atomic segment of task `i` (no-op on an
out-of-range index). -/
def gateStep (cap : Int) (s : GateSystem) (i : Nat) : GateSystem :=
  match s.tasks.get? i with
  | none => s
  | some p =>
    let pc := gateStepPhase cap s.concurrent p
    { concurrent := pc.2, tasks := s.tasks.set i pc.1 }

/-- Run a whole schedule (list of task indices). -/
def gateRun (cap : Int) (s : GateSystem) : List Nat → GateSystem
  | [] => s
  | i :: sched => gateRun cap (gateStep cap s i) sched

/-! ## Concrete witness inputs -/

/-- Concrete pure fetcher used as a witness input: every page carries its
offset as its sole row and reports a total size of 2500. -/
def witnessFetcher : Fetcher Nat Unit := fun _ offset =>
  { rows := [offset], size := 2500, context := () }

/-- Concrete fallible fetcher used as a witness input: page 0 resolves with
size 5 at limit 2; the page at offset 2 rejects. -/
def witnessFetcherE : FetcherE String Nat Unit := fun _ offset =>
  if offset = 0 then .ok { rows := [0, 1], size := 5, context := () }
  else if offset = 2 then .error "boom"
  else .ok { rows := [offset], size := 5, context := () }

/-- Concrete witness response: a 429 carrying `Retry-After: 2`. -/
def witnessResp429 : HttpResponse :=
  { status := 429, retryAfter := some 2, errorCode := none, errorInfo := none }

/-- Concrete witness response: a plain 200. -/
def witnessResp200 : HttpResponse :=
  { status := 200, retryAfter := none, errorCode := none, errorInfo := none }

/-- Concrete witness response: a 500 with an API error payload. -/
def witnessResp500 : HttpResponse :=
  { status := 500, retryAfter := none, errorCode := some 1005, errorInfo := some "server error" }

end MoySklad

namespace MoySklad

/-! # Theorems

Helper lemmas first (shared across claims), then one theorem per claim. -/

/-! ## Lemmas about the group loop -/

theorem range'_append_add (s m n : Nat) :
    List.range' s m ++ List.range' (s + m) n = List.range' s (m + n) := by
  rw [Nat.add_comm m n, ← List.range'_append s m n 1]
  simp

theorem groupLoop_flatten {c : Nat} (hc : 0 < c) (fuel : Nat) :
    ∀ i rb, rb - i ≤ fuel →
      (groupLoop c fuel i rb).flatten = List.range' i (rb - i) := by
  induction fuel with
  | zero =>
    intro i rb h
    have h0 : rb - i = 0 := Nat.le_zero.mp h
    simp [groupLoop, h0]
  | succ fuel ih =>
    intro i rb h
    by_cases hir : i < rb
    · rw [groupLoop, if_pos hir]
      rw [List.flatten_cons, ih (i + c) rb (by omega)]
      rcases le_or_lt (i + c) rb with hcase | hcase
      · have hm : min (i + c) rb - i = c := by omega
        rw [hm, range'_append_add]
        congr 1
        omega
      · have hm : min (i + c) rb - i = rb - i := by omega
        have hn : rb - (i + c) = 0 := by omega
        rw [hm, hn]
        simp
    · rw [groupLoop, if_neg hir]
      have h0 : rb - i = 0 := by omega
      simp [h0]

theorem groupLoop_length_le {c : Nat} (fuel : Nat) :
    ∀ i rb g, g ∈ groupLoop c fuel i rb → g.length ≤ c := by
  induction fuel with
  | zero => intro i rb g hg; simp [groupLoop] at hg
  | succ fuel ih =>
    intro i rb g hg
    rw [groupLoop] at hg
    by_cases hir : i < rb
    · rw [if_pos hir] at hg
      rcases List.mem_cons.mp hg with h | h
      · subst h; simp [List.length_range']; omega
      · exact ih _ _ _ h
    · rw [if_neg hir] at hg
      simp at hg

theorem batchGroups_flatten {c : Nat} (hc : 0 < c) (rb : Nat) :
    (batchGroups rb c).flatten = List.range rb := by
  unfold batchGroups
  rw [groupLoop_flatten hc rb 0 rb (by omega)]
  simp [List.range_eq_range']

theorem flatMap_of_flatten {α β : Type} (l : List (List α)) (h : α → List β) :
    l.flatMap (fun g => g.flatMap h) = l.flatten.flatMap h := by
  induction l with
  | nil => rfl
  | cons g gs ih => simp [List.flatMap_cons, ih]

/-- The extra rows fetched by `batchGet` past page 0, rewritten from the
group structure to a single pass over the batch indices. -/
theorem batchGet_rows_eq {T C : Type} (opts : BatchGetOptions) (f : Fetcher T C)
    (hasExpand : Bool) (hc : 0 < opts.concurrencyLimit)
    (hS : effectiveLimit opts hasExpand < (f (effectiveLimit opts hasExpand) 0).size) :
    (batchGet opts f hasExpand).rows =
      (List.range (ceilDiv ((f (effectiveLimit opts hasExpand) 0).size -
          effectiveLimit opts hasExpand) (effectiveLimit opts hasExpand) + 1)).flatMap
        (fun k => (f (effectiveLimit opts hasExpand)
          (k * effectiveLimit opts hasExpand)).rows) := by
  set L := effectiveLimit opts hasExpand with hL
  unfold batchGet
  rw [← hL]
  rw [if_neg (by omega)]
  simp only []
  set rb := ceilDiv ((f L 0).size - L) L with hrb
  have hflat : ∀ g : List Nat,
      ((g.map fun j => (f L (L + j * L)).rows).flatten) =
        g.flatMap fun j => (f L (L + j * L)).rows := by
    intro g
    rw [List.flatMap_def]
  calc
    (f L 0).rows ++ ((batchGroups rb opts.concurrencyLimit).flatMap fun g =>
        ((g.map fun j => (f L (L + j * L)).rows).flatten))
      = (f L 0).rows ++ ((batchGroups rb opts.concurrencyLimit).flatMap fun g =>
          g.flatMap fun j => (f L (L + j * L)).rows) := by
        simp only [hflat]
    _ = (f L 0).rows ++ ((batchGroups rb opts.concurrencyLimit).flatten.flatMap
          fun j => (f L (L + j * L)).rows) := by
        rw [flatMap_of_flatten]
    _ = (f L 0).rows ++ ((List.range rb).flatMap fun j => (f L (L + j * L)).rows) := by
        rw [batchGroups_flatten hc]
    _ = (List.range (rb + 1)).flatMap fun k => (f L (k * L)).rows := by
        rw [List.range_succ_eq_map]
        simp [List.flatMap_cons, List.flatMap_map, Nat.succ_mul, Nat.add_comm]

/-- The call trace of `batchGet` in the multi-page case, flattened to the
exact list of `(limit, offset)` pairs in issue order. -/
theorem batchGetCallGroups_flatten {T C : Type} (opts : BatchGetOptions)
    (f : Fetcher T C) (hasExpand : Bool) (hc : 0 < opts.concurrencyLimit)
    (hS : effectiveLimit opts hasExpand < (f (effectiveLimit opts hasExpand) 0).size) :
    (batchGetCallGroups opts f hasExpand).flatten =
      (List.range (ceilDiv ((f (effectiveLimit opts hasExpand) 0).size -
          effectiveLimit opts hasExpand) (effectiveLimit opts hasExpand) + 1)).map
        (fun k => (effectiveLimit opts hasExpand, k * effectiveLimit opts hasExpand)) := by
  set L := effectiveLimit opts hasExpand with hL
  unfold batchGetCallGroups
  rw [← hL]
  rw [if_neg (by omega)]
  simp only []
  set rb := ceilDiv ((f L 0).size - L) L with hrb
  rw [List.flatten_cons]
  rw [show (batchGroups rb opts.concurrencyLimit).map
        (fun g => g.map fun j => (L, L + j * L)) =
      (batchGroups rb opts.concurrencyLimit).map
        (List.map fun j => (L, L + j * L)) from rfl]
  rw [← List.map_flatten]
  rw [batchGroups_flatten hc]
  rw [List.range_succ_eq_map]
  simp [List.map_map, Nat.succ_mul, Nat.add_comm, Function.comp]

/-! ## Claim C1 -/

/-- C1: with effective page limit `L` (the expand limit when `hasExpand`, the
plain limit otherwise) and page-0 size `S`: when `S ≤ L` (including `S = 0`)
`batchGet` calls the fetcher exactly once, at offset 0, and returns exactly the
rows of page 0; when `S > L` it issues exactly the calls at offsets
`0, L, 2L, …, RB·L` with `RB = ceil((S − L) / L)` — once each, `1 + RB` calls
in total — the offset-0 call first and alone, the non-zero offsets in
successive groups of at most `concurrencyLimit` calls each (each group awaited
before the next is issued), and returns the concatenation of the rows of all
pages in ascending-offset page order (within a group, results are placed by
page index, which `Promise.all` guarantees regardless of completion order). -/
theorem batchGet_postcondition {T C : Type} (opts : BatchGetOptions) (f : Fetcher T C)
    (hasExpand : Bool) (L S : Nat)
    (hL : L = effectiveLimit opts hasExpand) (hLpos : 0 < L)
    (hc : 0 < opts.concurrencyLimit)
    (hS : S = (f L 0).size) :
    (S ≤ L →
      batchGetCallGroups opts f hasExpand = [[(L, 0)]] ∧
      batchGet opts f hasExpand =
        { context := (f L 0).context, rows := (f L 0).rows }) ∧
    (L < S →
      (batchGetCallGroups opts f hasExpand).flatten =
        (List.range (ceilDiv (S - L) L + 1)).map (fun k => (L, k * L)) ∧
      (batchGetCallGroups opts f hasExpand).head? = some [(L, 0)] ∧
      (∀ g ∈ (batchGetCallGroups opts f hasExpand).tail,
        g.length ≤ opts.concurrencyLimit) ∧
      (batchGet opts f hasExpand).rows =
        (List.range (ceilDiv (S - L) L + 1)).flatMap (fun k => (f L (k * L)).rows) ∧
      (batchGet opts f hasExpand).context = (f L 0).context) := by
  subst hL hS
  constructor
  · intro hle
    constructor
    · unfold batchGetCallGroups
      rw [if_pos hle]
    · unfold batchGet
      rw [if_pos hle]
  · intro hlt
    refine ⟨?_, ?_, ?_, ?_, ?_⟩
    · exact batchGetCallGroups_flatten opts f hasExpand hc hlt
    · unfold batchGetCallGroups
      rw [if_neg (by omega)]
      rfl
    · intro g hg
      unfold batchGetCallGroups at hg
      rw [if_neg (by omega)] at hg
      simp only [List.tail_cons] at hg
      obtain ⟨g0, hg0, rfl⟩ := List.mem_map.mp hg
      rw [List.length_map]
      exact groupLoop_length_le _ _ _ _ hg0
    · exact batchGet_rows_eq opts f hasExpand hc hlt
    · unfold batchGet
      rw [if_neg (by omega)]

/-- Witness for C1 at a concrete multi-page input: limit 1000, size 2500,
concurrency 3, so offsets 0, 1000, 2000 are fetched exactly once each. -/
theorem batchGet_postcondition_witness :
    (batchGetCallGroups defaultBatchGetOptions witnessFetcher false).flatten =
      (List.range (ceilDiv (2500 - 1000) 1000 + 1)).map (fun k => (1000, k * 1000)) :=
  ((batchGet_postcondition defaultBatchGetOptions witnessFetcher false 1000 2500
    rfl (by decide) (by decide) rfl).2 (by decide)).1

/-! ## Claims C2 and C10: stream/materialized equivalence, first chunk -/

theorem foldl_append_rows {T C : Type} :
    ∀ (l : List (BatchGetResult T C)) (acc : List T),
      l.foldl (fun a ch => a ++ ch.rows) acc = acc ++ l.flatMap BatchGetResult.rows := by
  intro l
  induction l with
  | nil => intro acc; simp
  | cons ch chs ih => intro acc; simp [ih]

theorem foldl_context_const {T C : Type} (c0 : C) :
    ∀ (l : List (BatchGetResult T C)) (a : Option C),
      l ≠ [] → (∀ ch ∈ l, ch.context = c0) →
      l.foldl (fun _ ch => some ch.context) a = some c0 := by
  intro l
  induction l with
  | nil => intro a h _; exact absurd rfl h
  | cons ch chs ih =>
    intro a _ hctx
    rw [List.foldl_cons]
    rcases chs with _ | ⟨ch2, chs2⟩
    · simp [hctx ch (by simp)]
    · exact ih _ (by simp) (fun x hx => hctx x (by simp [hx]))

/-- Every chunk yielded by `getChunks` carries the context of page 0. -/
theorem getChunks_context {T C : Type} (opts : BatchGetOptions) (f : Fetcher T C)
    (hasExpand : Bool) :
    ∀ ch ∈ getChunks opts f hasExpand,
      ch.context = (f (effectiveLimit opts hasExpand) 0).context := by
  intro ch hch
  unfold getChunks at hch
  rcases List.mem_cons.mp hch with h | h
  · rw [h]
  · split at h
    · simp at h
    · obtain ⟨g, _, rfl⟩ := List.mem_map.mp h
      rfl

/-- The rows of the chunks of `getChunks`, concatenated, are the rows of
`batchGet`, and both carry the context of page 0. -/
theorem getChunks_flatMap_rows {T C : Type} (opts : BatchGetOptions) (f : Fetcher T C)
    (hasExpand : Bool) :
    (getChunks opts f hasExpand).flatMap BatchGetResult.rows =
      (batchGet opts f hasExpand).rows := by
  unfold getChunks batchGet
  by_cases hle : (f (effectiveLimit opts hasExpand) 0).size ≤ effectiveLimit opts hasExpand
  · rw [if_pos hle]
    simp [if_pos hle]
  · rw [if_neg hle]
    simp only [if_neg hle, List.flatMap_cons]
    congr 1
    rw [List.flatMap_map]

/-- C2: over an unchanged backing collection, running `getChunks` to
completion and concatenating the rows of all yielded chunks gives exactly the
rows of `batchGet` for the identical query, in the same order; every chunk
carries the same context as the `batchGet` result, and the `getChunks`-based
`batchGet` returns exactly that result. -/
theorem getChunks_batchGet_equivalence {T C : Type} (opts : BatchGetOptions)
    (f : Fetcher T C) (hasExpand : Bool) :
    (getChunks opts f hasExpand).flatMap BatchGetResult.rows =
      (batchGet opts f hasExpand).rows ∧
    (∀ ch ∈ getChunks opts f hasExpand,
      ch.context = (batchGet opts f hasExpand).context) ∧
    batchGetViaChunks opts f hasExpand = .ok (batchGet opts f hasExpand) := by
  have hctx0 : (batchGet opts f hasExpand).context =
      (f (effectiveLimit opts hasExpand) 0).context := by
    simp only [batchGet]
    split <;> rfl
  refine ⟨getChunks_flatMap_rows opts f hasExpand, ?_, ?_⟩
  · intro ch hch
    rw [hctx0]
    exact getChunks_context opts f hasExpand ch hch
  · simp only [batchGetViaChunks]
    rw [foldl_context_const (f (effectiveLimit opts hasExpand) 0).context _ none
      (by unfold getChunks; simp) (getChunks_context opts f hasExpand)]
    rw [foldl_append_rows, List.nil_append, getChunks_flatMap_rows opts f hasExpand,
      hctx0.symm]

/-- Witness for C2 at a concrete multi-page input: the draft `batchGet`
produces exactly the materialized result. -/
theorem getChunks_batchGet_equivalence_witness :
    batchGetViaChunks defaultBatchGetOptions witnessFetcher false =
      .ok (batchGet defaultBatchGetOptions witnessFetcher false) :=
  (getChunks_batchGet_equivalence defaultBatchGetOptions witnessFetcher false).2.2

/-- C10: for every fetcher whose offset-0 call resolves, `getChunks` yields at
least one chunk — the page-0 chunk comes before the size comparison, even when
`meta.size = 0` — so the `getChunks`-based `batchGet` always has its context
assigned and its `getChunks returned no chunks` error branch is unreachable. -/
theorem getChunks_first_chunk_no_error {T C : Type} (opts : BatchGetOptions)
    (f : Fetcher T C) (hasExpand : Bool) :
    (getChunks opts f hasExpand).head? =
      some { context := (f (effectiveLimit opts hasExpand) 0).context,
             rows := (f (effectiveLimit opts hasExpand) 0).rows } ∧
    getChunks opts f hasExpand ≠ [] ∧
    ∃ r, batchGetViaChunks opts f hasExpand = .ok r := by
  refine ⟨by unfold getChunks; rfl, by unfold getChunks; simp, ?_⟩
  simp only [batchGetViaChunks]
  rw [foldl_context_const (f (effectiveLimit opts hasExpand) 0).context _ none
    (by unfold getChunks; simp) (getChunks_context opts f hasExpand)]
  exact ⟨_, rfl⟩

/-- Witness for C10 at a concrete input: the first chunk is the page-0 chunk. -/
theorem getChunks_first_chunk_no_error_witness :
    (getChunks defaultBatchGetOptions witnessFetcher false).head? =
      some { context := (witnessFetcher (effectiveLimit defaultBatchGetOptions false) 0).context,
             rows := (witnessFetcher (effectiveLimit defaultBatchGetOptions false) 0).rows } :=
  (getChunks_first_chunk_no_error defaultBatchGetOptions witnessFetcher false).1

/-! ## Claim C5: header synchronisation

The claim says that after a call with `now ≥ reset` the used weight is 0.  In
`updateRateLimitInfo` the final assignment
`requestsUsed = limit - remaining` is unconditional, so it overwrites the
roll-over reset whenever `remaining < limit`. -/

/-- C5 counterexample: recording headers `limit = 45`, `remaining = 40`,
`reset = 50` at `now = 100 ≥ reset` leaves `requestsUsed = 5`, not 0. -/
theorem updateRateLimitInfo_rollover_not_zero :
    (50 : Int) ≤ 100 ∧
    (updateRateLimitInfo initialRateLimitState 100
        { remaining := 40, limit := 45, reset := 50 }).requestsUsed = 5 ∧
    ((updateRateLimitInfo initialRateLimitState 100
        { remaining := 40, limit := 45, reset := 50 }).requestsUsed ≠ 0) := by
  decide

/-- C5 (amended): recording headers always sets the used weight to
`limit - remaining` (the unconditional final assignment overwrites the
roll-over reset to 0); the roll-over branch `now ≥ reset` updates only the
stored reset timestamp.  `TokenBucket.sync`, by contrast, does refill to full
capacity on roll-over and takes the server remaining inside the window. -/
theorem updateRateLimitInfo_spec (st : RateLimitState) (now : Int)
    (info : RateLimitInfo) (b : TokenBucket) (rem rst : Int) :
    (updateRateLimitInfo st now info).requestsUsed = info.limit - info.remaining ∧
    (updateRateLimitInfo st now info).lastReset =
      (if info.reset ≤ now then info.reset else st.lastReset) ∧
    (b.sync rem rst now).tokens = (if rst ≤ now then b.capacity else rem) ∧
    (b.sync rem rst now).nextReset = rst := by
  unfold updateRateLimitInfo TokenBucket.sync
  refine ⟨?_, ?_, ?_, ?_⟩ <;> split <;> rfl

/-! ## Claim C6: admission delay -/

/-- Inside a window, a run of zero-delay admissions strictly consumes budget:
either the run is empty or it ends with used weight at most `threshold - 1`. -/
theorem admittedRun_length_aux (t now : Int) :
    ∀ (ws : List Int) (st : RateLimitState), now < st.lastReset →
      admittedRun t now st ws →
      ws = [] ∨ (ws.length : Int) + st.requestsUsed ≤ t - 1 := by
  intro ws
  induction ws with
  | nil => intro st _ _; exact Or.inl rfl
  | cons w ws ih =>
    intro st hlt hr
    obtain ⟨hz, hw, hrest⟩ := hr
    have hadm : 1 < t - st.requestsUsed := by
      simp only [calculateBackoffDelay] at hz
      rw [if_neg (by omega)] at hz
      by_cases hb : 1 < t - st.requestsUsed
      · exact hb
      · rw [if_neg hb] at hz
        omega
    right
    rcases ih { st with requestsUsed := st.requestsUsed + w } hlt hrest with h0 | h0
    · subst h0
      simp only [List.length_cons, List.length_nil]
      omega
    · simp only [List.length_cons] at h0 ⊢
      push_cast at h0 ⊢
      omega

/-- C6: `calculateBackoffDelay` returns 0 when the current time has reached
the stored reset timestamp, and 0 inside the window while more than one unit
of local budget remains; once the remaining budget is down to its last unit it
returns exactly the milliseconds until the reset plus a 100 ms safety margin —
strictly positive — and consequently, within one window, a run of back-to-back
zero-delay admissions can have at most `threshold` members. -/
theorem calculateBackoffDelay_spec (t : Int) (st : RateLimitState) (now : Int)
    (ws : List Int) (hused : 0 ≤ st.requestsUsed) (ht : 0 ≤ t) :
    (st.lastReset ≤ now → calculateBackoffDelay t st now = 0) ∧
    (now < st.lastReset → 1 < t - st.requestsUsed →
      calculateBackoffDelay t st now = 0) ∧
    (now < st.lastReset → t - st.requestsUsed ≤ 1 →
      calculateBackoffDelay t st now = (st.lastReset - now) * 1000 + 100 ∧
      0 < calculateBackoffDelay t st now) ∧
    (now < st.lastReset → admittedRun t now st ws → (ws.length : Int) ≤ t) := by
  refine ⟨?_, ?_, ?_, ?_⟩
  · intro h
    simp only [calculateBackoffDelay]
    rw [if_pos h]
  · intro hlt hbudget
    simp only [calculateBackoffDelay]
    rw [if_neg (by omega), if_pos hbudget]
  · intro hlt hlast
    simp only [calculateBackoffDelay]
    rw [if_neg (by omega), if_neg (by omega)]
    constructor
    · rfl
    · omega
  · intro hlt hrun
    rcases admittedRun_length_aux t now ws st hlt hrun with h0 | h0
    · subst h0
      simp only [List.length_nil]
      omega
    · omega

/-- Witness for C6: with threshold 45, used weight 44 and 5 seconds left in
the window, the delay is exactly 5100 ms and positive. -/
theorem calculateBackoffDelay_spec_witness :
    calculateBackoffDelay 45 { lastReset := 10, requestsUsed := 44, concurrent := 0 } 5 =
      ((10 : Int) - 5) * 1000 + 100 ∧
    0 < calculateBackoffDelay 45
      { lastReset := 10, requestsUsed := 44, concurrent := 0 } 5 :=
  (calculateBackoffDelay_spec 45 { lastReset := 10, requestsUsed := 44, concurrent := 0 }
    5 [] (by decide) (by decide)).2.2.1 (by decide) (by decide)

/-! ## Claim C8: the concurrency clamp -/

/-- C8: whatever `concurrencyLimit` is configured, the constructed client
stores `min(configured, 5)`: values above the fixed `parallelRequestLimit` of
5 are clamped down to 5, values at most 5 are kept. -/
theorem concurrencyLimit_clamped (o : BatchGetOptionsInput) (c : Nat)
    (hc : o.concurrencyLimit = some c) :
    (resolveBatchGetOptions o).concurrencyLimit = min c 5 := by
  simp only [resolveBatchGetOptions, parallelRequestLimit, hc, Option.getD_some]
  split_ifs <;> simp <;> omega

/-- Witness for C8: a configured concurrency limit of 10 is stored as 5. -/
theorem concurrencyLimit_clamped_witness :
    (resolveBatchGetOptions { concurrencyLimit := some 10 }).concurrencyLimit =
      min 10 5 :=
  concurrencyLimit_clamped { concurrencyLimit := some 10 } 10 rfl

/-! ## Claim C9: the request-weight schedule -/

theorem CalDate.le_trans {a b c : CalDate} (h1 : a.le b) (h2 : b.le c) : a.le c := by
  unfold CalDate.le at h1 h2 ⊢
  omega

/-- C9: token-style auth always weighs 1; credential-style auth is a
nondecreasing step function of the date, always in `{1, 2, 3, 4}`: 1 before
2026-05-12, 2 from 2026-05-12, 3 from 2026-09-01, 4 from 2026-12-01. -/
theorem getRequestWeight_schedule (tok lg pw : String) (a : Auth) (d d2 : CalDate)
    (hmono : d.le d2) :
    getRequestWeight (.token tok) d = 1 ∧
    (1 ≤ getRequestWeight a d ∧ getRequestWeight a d ≤ 4) ∧
    getRequestWeight a d ≤ getRequestWeight a d2 ∧
    (¬ date_may12_2026.le d → getRequestWeight (.basic lg pw) d = 1) ∧
    (date_may12_2026.le d → ¬ date_sep1_2026.le d →
      getRequestWeight (.basic lg pw) d = 2) ∧
    (date_sep1_2026.le d → ¬ date_dec1_2026.le d →
      getRequestWeight (.basic lg pw) d = 3) ∧
    (date_dec1_2026.le d → getRequestWeight (.basic lg pw) d = 4) := by
  have chain12 : date_may12_2026.le date_sep1_2026 := by decide
  have chain23 : date_sep1_2026.le date_dec1_2026 := by decide
  refine ⟨rfl, ?_, ?_, ?_, ?_, ?_, ?_⟩
  · cases a <;> simp only [getRequestWeight] <;> (try split_ifs) <;> omega
  · cases a with
    | token t => simp [getRequestWeight]
    | basic l0 p0 =>
      have t3 : date_dec1_2026.le d → date_dec1_2026.le d2 :=
        fun h => CalDate.le_trans h hmono
      have t2 : date_sep1_2026.le d → date_sep1_2026.le d2 :=
        fun h => CalDate.le_trans h hmono
      have t1 : date_may12_2026.le d → date_may12_2026.le d2 :=
        fun h => CalDate.le_trans h hmono
      simp only [getRequestWeight]
      split_ifs <;> first | omega | (exfalso; tauto)
  · intro h1
    have h2 : ¬ date_sep1_2026.le d := fun h => h1 (CalDate.le_trans chain12 h)
    have h3 : ¬ date_dec1_2026.le d :=
      fun h => h1 (CalDate.le_trans (CalDate.le_trans chain12 chain23) h)
    simp only [getRequestWeight]
    rw [if_neg h3, if_neg h2, if_neg h1]
  · intro h1 h2
    have h3 : ¬ date_dec1_2026.le d := fun h => h2 (CalDate.le_trans chain23 h)
    simp only [getRequestWeight]
    rw [if_neg h3, if_neg h2, if_pos h1]
  · intro h2 h3
    simp only [getRequestWeight]
    rw [if_neg h3, if_pos h2]
  · intro h3
    simp only [getRequestWeight]
    rw [if_pos h3]

/-- Witness for C9 on the eve of the first threshold: on 2026-05-11 a
credential-authenticated request still weighs 1. -/
theorem getRequestWeight_schedule_witness :
    getRequestWeight (.basic "login" "password") { year := 2026, month := 5, day := 11 } = 1 :=
  (getRequestWeight_schedule "t" "login" "password" (.token "t")
    { year := 2026, month := 5, day := 11 } { year := 2026, month := 5, day := 11 }
    (by decide)).2.2.2.1 (by decide)

/-! ## Claim C3: the concurrency gate invariant fails

The check `concurrent >= parallelRequestLimit` (inside `waitForParallelSlot`)
and the increment `concurrent++` (in the continuation of
`await this.waitForParallelSlot()`) are separated by a suspension point.  Six
`request` calls started in the same synchronous burst each run their check
segment first — all see `concurrent = 0 < 5` — and only then do their
increment segments run: the counter reaches 6 and six HTTP calls are in
flight at once, exceeding `parallelRequestLimit = 5`. -/

/-- C3 (failing execution): with cap 5 and six tasks, the schedule that lets
every task pass the gate check before any task increments drives the shared
counter to 6 and puts all six tasks in the `running` (HTTP in flight) phase
simultaneously — the claimed invariant `concurrent ≤ parallelRequestLimit`
does not hold at every suspension point. -/
theorem gate_check_increment_race :
    (gateRun 5 { concurrent := 0, tasks := List.replicate 6 .checking }
        [0, 1, 2, 3, 4, 5, 0, 1, 2, 3, 4, 5]).concurrent = 6 ∧
    (gateRun 5 { concurrent := 0, tasks := List.replicate 6 .checking }
        [0, 1, 2, 3, 4, 5, 0, 1, 2, 3, 4, 5]).tasks = List.replicate 6 .running ∧
    ¬ (gateRun 5 { concurrent := 0, tasks := List.replicate 6 .checking }
        [0, 1, 2, 3, 4, 5, 0, 1, 2, 3, 4, 5]).concurrent ≤ 5 := by
  decide

/-! ## Claim C4: 429 retry behaviour -/

/-- A 429 never escapes `requestAttempts`: successes are 2xx and failures
carry a non-429 status. -/
theorem requestAttempts_no_429_surfaced {Opt : Type} (endpoint : String)
    (options : Opt) :
    ∀ (resps : List HttpResponse),
      (∀ r2, (requestAttempts endpoint options resps).2 = .success r2 →
        r2.status ≠ 429) ∧
      (∀ e, (requestAttempts endpoint options resps).2 = .failure e →
        e.responseStatus ≠ 429) := by
  intro resps
  induction resps with
  | nil => exact ⟨fun r2 h => by simp [requestAttempts] at h,
      fun e h => by simp [requestAttempts] at h⟩
  | cons r rest ih =>
    constructor
    · intro r2 h
      simp only [requestAttempts] at h
      by_cases hok : responseOk r.status = true
      · rw [if_pos hok] at h
        simp only [responseOk, Bool.and_eq_true, decide_eq_true_eq] at hok
        have hr : r = r2 := by simpa using h
        subst hr
        omega
      · rw [if_neg hok] at h
        by_cases h429 : r.status = 429
        · rw [if_pos h429] at h
          exact ih.1 r2 h
        · rw [if_neg h429] at h
          simp at h
    · intro e h
      simp only [requestAttempts] at h
      by_cases hok : responseOk r.status = true
      · rw [if_pos hok] at h
        simp at h
      · rw [if_neg hok] at h
        by_cases h429 : r.status = 429
        · rw [if_pos h429] at h
          exact ih.2 e h
        · rw [if_neg h429] at h
          have he : handleError r = e := by simpa using h
          subst he
          simpa [handleError] using h429

/-- C4: when an attempt of `request` receives a 429, the 429 is not surfaced:
`request` sleeps `Retry-After · 1000` ms when that header is present and 3100
ms otherwise, then retries the identical request (same endpoint, same
options) — the remaining run is exactly `requestAttempts` on the same
arguments — and no outcome of any run ever carries a 429. -/
theorem request_429_retry {Opt : Type} (endpoint : String) (options : Opt)
    (r : HttpResponse) (rest : List HttpResponse) (h429 : r.status = 429) :
    requestAttempts endpoint options (r :: rest) =
      (retryDelay429 r :: (requestAttempts endpoint options rest).1,
        (requestAttempts endpoint options rest).2) ∧
    (∀ s, r.retryAfter = some s → retryDelay429 r = s * 1000) ∧
    (r.retryAfter = none → retryDelay429 r = 3100) ∧
    (∀ (resps : List HttpResponse) (r2 : HttpResponse),
      (requestAttempts endpoint options resps).2 = .success r2 → r2.status ≠ 429) ∧
    (∀ (resps : List HttpResponse) (e : MoyskladApiError),
      (requestAttempts endpoint options resps).2 = .failure e →
        e.responseStatus ≠ 429) := by
  refine ⟨?_, ?_, ?_, fun resps => (requestAttempts_no_429_surfaced endpoint options resps).1,
    fun resps => (requestAttempts_no_429_surfaced endpoint options resps).2⟩
  · have hok : ¬ responseOk r.status = true := by
      rw [h429]
      decide
    simp only [requestAttempts]
    rw [if_neg hok, if_pos h429]
  · intro s hs
    simp [retryDelay429, hs]
  · intro hs
    simp [retryDelay429, hs]

/-- Witness for C4: a 429 with `Retry-After: 2` sleeps 2000 ms and the retry
succeeds with the second scripted response. -/
theorem request_429_retry_witness :
    requestAttempts "entity/assortment" () [witnessResp429, witnessResp200] =
      (retryDelay429 witnessResp429 ::
        (requestAttempts "entity/assortment" () [witnessResp200]).1,
        (requestAttempts "entity/assortment" () [witnessResp200]).2) :=
  (request_429_retry "entity/assortment" () witnessResp429 [witnessResp200] rfl).1

/-! ## Claim C7: non-429 error propagation

Lemmas about `mapExceptList` (the `Promise.all` model): it resolves iff all
elements resolve, rejects with the error of the first rejecting element, and
a nested (grouped) traversal rejects exactly when the flattened traversal
does. -/

theorem except_bind_ok {ε α β : Type} (a : α) (g : α → Except ε β) :
    (Except.ok a : Except ε α).bind g = g a := rfl

theorem except_bind_error {ε α β : Type} (e : ε) (g : α → Except ε β) :
    (Except.error e : Except ε α).bind g = .error e := rfl

theorem except_bindM_ok {ε α β : Type} (a : α) (g : α → Except ε β) :
    (Except.ok a : Except ε α) >>= g = g a := rfl

theorem except_bindM_error {ε α β : Type} (e : ε) (g : α → Except ε β) :
    (Except.error e : Except ε α) >>= g = .error e := rfl

theorem mapExceptList_cons {ε α β : Type} (h : α → Except ε β) (x : α) (xs : List α) :
    mapExceptList h (x :: xs) =
      (h x).bind fun b => (mapExceptList h xs).bind fun bs => .ok (b :: bs) := rfl

theorem mapExceptList_error_append {ε α β : Type} (h : α → Except ε β) (a : α)
    (e : ε) (ha : h a = .error e) :
    ∀ (l1 l2 : List α), (∀ x ∈ l1, ∃ b, h x = .ok b) →
      mapExceptList h (l1 ++ a :: l2) = .error e := by
  intro l1
  induction l1 with
  | nil =>
    intro l2 _
    rw [List.nil_append, mapExceptList_cons, ha, except_bind_error]
  | cons x xs ih =>
    intro l2 hall
    obtain ⟨b, hb⟩ := hall x (by simp)
    rw [List.cons_append, mapExceptList_cons, hb, except_bind_ok,
      ih l2 (fun y hy => hall y (by simp [hy])), except_bind_error]

theorem mapExceptList_append {ε α β : Type} (h : α → Except ε β) :
    ∀ l1 l2 : List α,
      mapExceptList h (l1 ++ l2) =
        (mapExceptList h l1).bind fun b1 =>
          (mapExceptList h l2).bind fun b2 => .ok (b1 ++ b2) := by
  intro l1
  induction l1 with
  | nil =>
    intro l2
    rw [List.nil_append]
    show mapExceptList h l2 = (mapExceptList h l2).bind fun b2 => .ok ([] ++ b2)
    cases mapExceptList h l2 with
    | error e => rfl
    | ok bs => simp [except_bind_ok]
  | cons x xs ih =>
    intro l2
    rw [List.cons_append, mapExceptList_cons, mapExceptList_cons, ih l2]
    cases h x with
    | error e => rfl
    | ok b =>
      cases mapExceptList h xs with
      | error e => rfl
      | ok bs =>
        cases mapExceptList h l2 with
        | error e => rfl
        | ok b2 => rfl

theorem mapExceptList_flatten {ε α β : Type} (h : α → Except ε β) :
    ∀ gs : List (List α),
      (mapExceptList (fun g => mapExceptList h g) gs).map List.flatten =
        mapExceptList h gs.flatten := by
  intro gs
  induction gs with
  | nil => rfl
  | cons g gs ih =>
    rw [List.flatten_cons, mapExceptList_cons, mapExceptList_append h g gs.flatten]
    cases hg : mapExceptList h g with
    | error e => rw [except_bind_error, except_bind_error]; rfl
    | ok bs =>
      rw [except_bind_ok, except_bind_ok, ← ih]
      cases mapExceptList (fun g => mapExceptList h g) gs with
      | error e => rw [except_bind_error]; rfl
      | ok rss =>
        rw [except_bind_ok]
        show Except.ok (bs :: rss).flatten = _
        rw [List.flatten_cons]
        rfl

theorem except_map_eq_error {ε α β : Type} (m : Except ε α) (g : α → β) (e : ε)
    (h : m.map g = .error e) : m = .error e := by
  cases m with
  | error e2 =>
    cases h
    rfl
  | ok a => simp [Except.map] at h

theorem range_split_at (k rb : Nat) (hk : k < rb) :
    List.range rb = List.range k ++ k :: List.range' (k + 1) (rb - (k + 1)) := by
  have h1 : List.range' 0 k ++ List.range' k (rb - k) = List.range' 0 rb := by
    have h2 := range'_append_add 0 k (rb - k)
    simp only [Nat.zero_add] at h2
    rw [h2]
    congr 1
    omega
  rw [List.range_eq_range', List.range_eq_range', ← h1]
  congr 1
  have h3 : rb - k = (rb - (k + 1)) + 1 := by omega
  rw [h3]
  rfl

theorem nested_mapExceptList_error {ε α β : Type} (h : α → Except ε β)
    (gs : List (List α)) (e : ε)
    (herr : mapExceptList h gs.flatten = .error e) :
    mapExceptList (fun g => mapExceptList h g) gs = .error e := by
  have hmap := mapExceptList_flatten h gs
  rw [herr] at hmap
  exact except_map_eq_error _ _ e hmap

theorem chunkGroupLoop_snd {ε T C : Type} (f : FetcherE ε T C) (limit : Nat) (ctx : C) :
    ∀ gs : List (List Nat),
      (chunkGroupLoop f limit ctx gs).2 =
        (match mapExceptList
            (fun g =>
              mapExceptList (fun j => (f limit (limit + j * limit)).map ListResponse.rows) g)
            gs with
         | .error e => some e
         | .ok _ => none) := by
  intro gs
  induction gs with
  | nil => rfl
  | cons g gs ih =>
    rw [mapExceptList_cons]
    simp only [chunkGroupLoop]
    cases hg : mapExceptList
        (fun j => (f limit (limit + j * limit)).map ListResponse.rows) g with
    | error e => rw [except_bind_error]
    | ok rss =>
      rw [except_bind_ok]
      simp only [ih]
      cases mapExceptList
          (fun g =>
            mapExceptList (fun j => (f limit (limit + j * limit)).map ListResponse.rows) g)
          gs with
      | error e => rfl
      | ok rest => rfl

/-- C7: a non-2xx, non-429 response makes `request` raise the structured
`MoyskladApiError` built from the HTTP status and the API error payload,
with no retry (no sleep, the remaining attempts untouched); and neither
`batchGet` nor `getChunks` catches a failing page fetch: a rejected page-0
fetch rejects both outright, and a rejected later page (the first one to
reject) rejects the whole batch with exactly that error — no partial result —
and terminates the chunk stream with that error. -/
theorem non429_error_propagation {Opt ε T C : Type} (endpoint : String) (options : Opt)
    (r : HttpResponse) (rest : List HttpResponse)
    (hok : ¬ responseOk r.status = true) (h429 : r.status ≠ 429)
    (opts : BatchGetOptions) (f : FetcherE ε T C) (hasExpand : Bool)
    (hc : 0 < opts.concurrencyLimit) :
    (requestAttempts endpoint options (r :: rest) =
        ([], .failure (handleError r)) ∧
      (handleError r).responseStatus = r.status ∧
      (handleError r).code = r.errorCode ∧
      (handleError r).info = r.errorInfo) ∧
    (∀ e, f (effectiveLimit opts hasExpand) 0 = .error e →
      batchGetE opts f hasExpand = .error e ∧
      getChunksE opts f hasExpand = ([], some e)) ∧
    (∀ (d : ListResponse T C) (e : ε) (k : Nat),
      f (effectiveLimit opts hasExpand) 0 = .ok d →
      effectiveLimit opts hasExpand < d.size →
      k < ceilDiv (d.size - effectiveLimit opts hasExpand) (effectiveLimit opts hasExpand) →
      f (effectiveLimit opts hasExpand)
          (effectiveLimit opts hasExpand + k * effectiveLimit opts hasExpand) = .error e →
      (∀ j, j < k → ∃ dj, f (effectiveLimit opts hasExpand)
          (effectiveLimit opts hasExpand + j * effectiveLimit opts hasExpand) = .ok dj) →
      batchGetE opts f hasExpand = .error e ∧
      (getChunksE opts f hasExpand).2 = some e) := by
  refine ⟨?_, ?_, ?_⟩
  · refine ⟨?_, rfl, rfl, rfl⟩
    simp only [requestAttempts]
    rw [if_neg hok, if_neg h429]
  · intro e he
    constructor
    · simp only [batchGetE, he, except_bindM_error]
    · simp only [getChunksE, he]
  · intro d e k h0 hS hk hke hprev
    set L := effectiveLimit opts hasExpand with hL
    set rb := ceilDiv (d.size - L) L with hrb
    have herr :
        mapExceptList (fun j => (f L (L + j * L)).map ListResponse.rows)
          (List.range rb) = .error e := by
      rw [range_split_at k rb hk]
      refine mapExceptList_error_append _ k e ?_ (List.range k) _ ?_
      · rw [hke]
        rfl
      · intro x hx
        obtain ⟨dj, hdj⟩ := hprev x (List.mem_range.mp hx)
        exact ⟨dj.rows, by rw [hdj]; rfl⟩
    have hnested :
        mapExceptList
          (fun g =>
            mapExceptList (fun j => (f L (L + j * L)).map ListResponse.rows) g)
          (batchGroups rb opts.concurrencyLimit) = .error e := by
      refine nested_mapExceptList_error _ _ e ?_
      rw [batchGroups_flatten hc]
      exact herr
    constructor
    · simp only [batchGetE, h0, except_bindM_ok]
      rw [if_neg (show ¬ d.size ≤ L by omega), ← hrb, hnested, except_bindM_error]
    · simp only [getChunksE, h0]
      rw [if_neg (show ¬ d.size ≤ L by omega)]
      simp only [← hrb, chunkGroupLoop_snd, hnested]

/-- Witness for C7: a 500 response fails immediately with the structured
error, and the fallible fetcher whose offset-2 page rejects with "boom"
rejects the whole batch with "boom". -/
theorem non429_error_propagation_witness :
    requestAttempts "entity/product" () [witnessResp500] =
      ([], .failure (handleError witnessResp500)) ∧
    batchGetE { limit := 2, expandLimit := 100, concurrencyLimit := 1 }
      witnessFetcherE false = .error "boom" := by
  have h := non429_error_propagation "entity/product" () witnessResp500 []
    (by decide) (by decide)
    { limit := 2, expandLimit := 100, concurrencyLimit := 1 }
    witnessFetcherE false (by decide)
  refine ⟨h.1.1, ?_⟩
  exact (h.2.2 { rows := [0, 1], size := 5, context := () } "boom" 0 rfl (by decide)
    (by decide) rfl (fun j hj => absurd hj (Nat.not_lt_zero j))).1

end MoySklad
